import Mathlib

/-!
Verification of the mentascribe-desktop audio capture / streaming
transcription core (`src-tauri/src/audio/capture.rs`,
`src-tauri/src/transcription/whisper.rs`, `src-tauri/src/lib.rs`).

Shallow embedding conventions:
* audio samples (`f32`) are modelled as rationals `ℚ`;
* Rust `String` values are modelled as `List Char`;
* the rubato resampler (an external library) is modelled by oracle
  functions `List ℚ → Option (List ℚ)` giving the output of each
  `process` / `process_partial` call (`none` = the call returned `Err`);
* the Silero/whisper VAD model and the whisper inference are likewise
  oracle inputs (`segs`, `transcription`) of each monitor poll;
* locks are elided: `try_lock` contention only drops metering data or
  delays resampling, and the theorems below quantify over the sample
  streams actually delivered.
-/

namespace Mentascribe

/-- Rust `slice::chunks(n)`: split a list into consecutive chunks of `n`
elements, the last chunk possibly shorter.  Only used with `n ≥ 1`. -/
def chunksOf {α : Type} (n : Nat) : List α → List (List α)
  | [] => []
  | a :: l => (a :: l.take (n - 1)) :: chunksOf n (l.drop (n - 1))
termination_by l => l.length
decreasing_by
  simp only [List.length_drop, List.length_cons]
  omega

/-- `capture.rs to_mono`: convert a multi-channel interleaved chunk to mono by
averaging channels; returns the input unchanged if already mono. -/
def to_mono (data : List ℚ) (channels : Nat) : List ℚ :=
  if channels ≤ 1 then data
  else (chunksOf channels data).map (fun frame => frame.sum / (frame.length : ℚ))

/-- `capture.rs calculate_rms`: root mean square level of a chunk. -/
noncomputable def calculate_rms (samples : List ℚ) : ℝ :=
  if samples = [] then 0
  else Real.sqrt ((((samples.map (fun s => s * s)).sum : ℚ) : ℝ) / (samples.length : ℝ))

/-- Operations affecting `CURRENT_AUDIO_LEVEL`: a CPAL input callback carrying
a chunk of samples, or the reset done by `stop_capture` / `reset_state`. -/
inductive LevelOp : Type
  | callback (data : List ℚ)
  | stopReset

/-- One update of `CURRENT_AUDIO_LEVEL` (capture.rs input callback lines
268-278, and the `0.0` stores of `stop_capture` / `reset_state`). -/
noncomputable def level_step (old : ℝ) : LevelOp → ℝ
  | .callback data =>
      let rms := calculate_rms data
      let normalized := min (rms * 15) 1
      old * 0.15 + normalized * 0.85
  | .stopReset => 0

/-- The smoothed audio level after a sequence of operations, starting from the
initial value `0.0` of `CURRENT_AUDIO_LEVEL`. -/
noncomputable def level_after (ops : List LevelOp) : ℝ :=
  ops.foldl level_step 0

/-- `capture.rs AudioError`. -/
inductive AudioError : Type
  | NoInputDevice
  | ConfigError
  | StreamError
  | PlayError
  | AlreadyRunning
  | NotRunning
deriving DecidableEq

/-- `capture.rs ResamplerState` (the rubato resampler itself is an oracle, so
only the accumulator and the sticky failure flag are state). -/
structure RState where
  mono_accumulator : List ℚ
  failed : Bool
deriving DecidableEq

/-- The shared capture globals of `capture.rs`: `IS_STOPPING`, `AUDIO_THREAD`,
`AUDIO_BUFFER`, `WHISPER_BUFFER`, `RESAMPLER_STATE`, `SAMPLE_RATE`,
`CHANNELS`. -/
structure CaptureState where
  is_stopping : Bool
  audio_thread : Bool
  audio_buffer : List ℚ
  whisper_buffer : List ℚ
  resampler_state : Option RState
  sample_rate : Nat
  channels : Nat
deriving DecidableEq

/-- `capture.rs AudioData`, the value returned by `stop_capture`. -/
structure AudioData where
  samples : List ℚ
  sample_rate : Nat
  channels : Nat
  whisper_samples : Option (List ℚ)
deriving DecidableEq

/-- The resampler's fixed input chunk size (1024 samples). -/
def chunkSize : Nat := 1024

/-- `capture.rs drain_resampler`: process full chunks from the accumulator
through the resampler, appending output to the whisper buffer.  `process` is
the rubato `process` oracle.  Returns the updated state, the extended buffer,
and `false` iff a process call failed (caller marks the state failed). -/
def drain_resampler (process : List ℚ → Option (List ℚ)) (st : RState)
    (wbuf : List ℚ) : RState × List ℚ × Bool :=
  if chunkSize ≤ st.mono_accumulator.length then
    let chunk := st.mono_accumulator.take chunkSize
    let rest := st.mono_accumulator.drop chunkSize
    match process chunk with
    | some out => drain_resampler process { st with mono_accumulator := rest } (wbuf ++ out)
    | none => ({ st with mono_accumulator := rest }, wbuf, false)
  else (st, wbuf, true)
termination_by st.mono_accumulator.length
decreasing_by
  simp only [List.length_drop]
  simp only [chunkSize] at *
  omega

/-- `capture.rs start_capture` (lines 135-355).  `sr`/`ch` are the device
config the spawned thread reads, `createOk` whether the rubato constructor
succeeds.  Rejects when a stop is finalizing or a session is active; otherwise
clears both buffers, installs the fresh resampler state (only when the device
rate is not 16kHz and creation succeeded) and records the running thread. -/
def start_capture (sr ch : Nat) (createOk : Bool) (s : CaptureState) :
    Except AudioError CaptureState :=
  if s.is_stopping then .error .AlreadyRunning
  else if s.audio_thread then .error .AlreadyRunning
  else .ok { is_stopping := s.is_stopping
             audio_thread := true
             audio_buffer := []
             whisper_buffer := []
             resampler_state :=
               if sr ≠ 16000 ∧ createOk then some ⟨[], false⟩ else none
             sample_rate := sr
             channels := ch }

/-- The CPAL input callback (capture.rs lines 255-314), sample-buffer part:
append raw samples, then feed the resampler (skipped permanently once
`failed`), or append mono samples directly on a 16kHz device. -/
def input_callback (process : List ℚ → Option (List ℚ)) (s : CaptureState)
    (data : List ℚ) : CaptureState :=
  let s := { s with audio_buffer := s.audio_buffer ++ data }
  match s.resampler_state with
  | some rs =>
      if rs.failed then s
      else
        let mono := to_mono data s.channels
        let fed : RState := { rs with mono_accumulator := rs.mono_accumulator ++ mono }
        let res := drain_resampler process fed s.whisper_buffer
        { s with whisper_buffer := res.2.1
                 resampler_state := some { res.1 with failed := !res.2.2 } }
  | none =>
      if s.sample_rate = 16000 then
        { s with whisper_buffer := s.whisper_buffer ++ to_mono data s.channels }
      else s

/-- `capture.rs stop_capture` (lines 357-490).  `flush` is the rubato
`process_partial` oracle used to drain the accumulator remainder.  Produces
the `AudioData` (raw buffer, device config, optional pre-processed whisper
samples) and the cleared global state. -/
def stop_capture (flush : List ℚ → Option (List ℚ)) (s : CaptureState) :
    Except AudioError (AudioData × CaptureState) :=
  if ¬ s.audio_thread then .error .NotRunning
  else
    let result : Option (List ℚ) × List ℚ :=
      match s.resampler_state with
      | some rs =>
          if rs.failed then (none, s.whisper_buffer)
          else
            let wbuf := s.whisper_buffer
            let wbuf :=
              if rs.mono_accumulator ≠ [] then
                match flush rs.mono_accumulator with
                | some out => wbuf ++ out
                | none => []
              else wbuf
            (if wbuf = [] then none else some wbuf, [])
      | none =>
          (if s.whisper_buffer = [] then none else some s.whisper_buffer, [])
    .ok ({ samples := s.audio_buffer
           sample_rate := s.sample_rate
           channels := s.channels
           whisper_samples := result.1 },
         { s with is_stopping := false
                  audio_thread := false
                  audio_buffer := []
                  whisper_buffer := result.2
                  resampler_state := none })

/-- `capture.rs snapshot_whisper_buffer`: read a snapshot of the whisper
buffer from position `start` onwards, returning the new samples and the
current buffer length. -/
def snapshot_whisper_buffer (wbuf : List ℚ) (start : Nat) : List ℚ × Nat :=
  let len := wbuf.length
  if len > start then (wbuf.drop start, len) else ([], len)

/-- `capture.rs resample_linear`: the fallback linear-interpolation resampler.
(`ℚ` division by zero is zero; callers pass a nonzero device rate.) -/
def resample_linear (samples : List ℚ) (from_rate to_rate : Nat) : List ℚ :=
  let ratio : ℚ := (from_rate : ℚ) / (to_rate : ℚ)
  let new_len : Nat := (⌊(samples.length : ℚ) / ratio⌋).toNat
  (List.range new_len).foldl
    (fun (resampled : List ℚ) (i : Nat) =>
      let src_pos : ℚ := (i : ℚ) * ratio
      let src_idx : Nat := (⌊src_pos⌋).toNat
      let frac : ℚ := src_pos - (src_idx : ℚ)
      if src_idx + 1 < samples.length then
        resampled ++ [samples.getD src_idx 0 * (1 - frac) + samples.getD (src_idx + 1) 0 * frac]
      else if src_idx < samples.length then
        resampled ++ [samples.getD src_idx 0]
      else resampled)
    []

/-- The full-chunk loop of `capture.rs resample`: process `chunkSize`-sized
chunks through the rubato oracle `proc`; `none` when a call failed (the caller
falls back to `resample_linear`), otherwise the accumulated output and the
final position. -/
def resample_chunks (proc : List ℚ → Option (List ℚ)) (samples : List ℚ)
    (pos : Nat) (output : List ℚ) : Option (List ℚ × Nat) :=
  if pos + chunkSize ≤ samples.length then
    match proc ((samples.drop pos).take chunkSize) with
    | some out => resample_chunks proc samples (pos + chunkSize) (output ++ out)
    | none => none
  else some (output, pos)
termination_by samples.length - pos
decreasing_by
  simp only [chunkSize] at *
  omega

/-- `capture.rs resample` (lines 575-630): rubato `FastFixedIn` resampling
with fallback to `resample_linear` on any rubato failure.  `create` is the
constructor outcome, `proc`/`procRemainder` the `process` /
`process_partial` oracles. -/
def resample (create : Bool) (proc procRemainder : List ℚ → Option (List ℚ))
    (samples : List ℚ) (from_rate to_rate : Nat) : List ℚ :=
  if from_rate = to_rate ∨ samples = [] then samples
  else if ¬ create then resample_linear samples from_rate to_rate
  else
    match resample_chunks proc samples 0 [] with
    | none => resample_linear samples from_rate to_rate
    | some (output, pos) =>
        if pos < samples.length then
          match procRemainder (samples.drop pos) with
          | some out => output ++ out
          | none => resample_linear samples from_rate to_rate
        else output

/-- The fallback path of `capture.rs prepare_for_whisper` (lines 538-572):
mono conversion of the complete raw buffer followed by resampling to 16kHz
when the device rate differs. -/
def prepare_fallback (create : Bool) (proc procRemainder : List ℚ → Option (List ℚ))
    (audio : AudioData) : List ℚ :=
  if audio.samples = [] then []
  else
    let mono_samples :=
      if audio.channels > 1 then
        (chunksOf audio.channels audio.samples).map
          (fun chunk => chunk.sum / (chunk.length : ℚ))
      else audio.samples
    if audio.sample_rate ≠ 16000 then
      resample create proc procRemainder mono_samples audio.sample_rate 16000
    else mono_samples

/-- `capture.rs prepare_for_whisper`: use the pre-processed 16kHz mono
samples when available and non-empty, otherwise fall back to post-stop
processing of the complete raw buffer. -/
def prepare_for_whisper (create : Bool) (proc procRemainder : List ℚ → Option (List ℚ))
    (audio : AudioData) : List ℚ :=
  match audio.whisper_samples with
  | some ws => if ws = [] then prepare_fallback create proc procRemainder audio else ws
  | none => prepare_fallback create proc procRemainder audio

/-- `lib.rs stop_recording` lines 301-324: trim the whisper samples to the
unconsumed tail (a no-op when nothing was consumed, empty when everything
was). -/
def trim_tail (ws : List ℚ) (consumed_samples : Nat) : List ℚ :=
  if consumed_samples > 0 then
    if consumed_samples < ws.length then ws.drop consumed_samples else []
  else ws

/-! ## Text handling (`whisper.rs`); Rust strings as `List Char` -/

/-- Rust `str::trim` on a character list: drop whitespace from both ends. -/
def trimChars (l : List Char) : List Char :=
  (((l.dropWhile Char.isWhitespace).reverse.dropWhile Char.isWhitespace)).reverse

/-- `whisper.rs HALLUCINATION_PHRASES`: the fixed list of stock phrases
whisper hallucinates from silence. -/
def HALLUCINATION_PHRASES : List (List Char) :=
  [String.toList "thank you",
   String.toList "thanks for watching",
   String.toList "thanks for listening",
   String.toList "thank you for watching",
   String.toList "thank you for listening",
   String.toList "please subscribe",
   String.toList "like and subscribe",
   String.toList "subtitles by",
   String.toList "transcribed by",
   String.toList "copyright",
   String.toList "the end",
   String.toList "you"]

/-- `whisper.rs is_likely_hallucination`: the trimmed, lowercased text equals
a known hallucination phrase, optionally followed by one of `.` / `!`. -/
def is_likely_hallucination (text : List Char) : Bool :=
  let normalized := (trimChars text).map Char.toLower
  if normalized = [] then false
  else HALLUCINATION_PHRASES.any (fun phrase =>
    normalized == phrase || normalized == phrase ++ ['.'] ||
      normalized == phrase ++ ['!'])

/-- The result post-processing of `whisper.rs run_whisper` (lines 1335-1381
and 1423): the concatenated segment text is trimmed, and a result matching a
known hallucination pattern is suppressed to the empty string. -/
def run_whisper_result (segments_text : List Char) : List Char :=
  let result := trimChars segments_text
  if is_likely_hallucination result then [] else result

/-! ## VAD segment extraction and pre-filtering (`whisper.rs`) -/

/-- Conversion of a VAD timestamp in centiseconds to a sample index at 16kHz:
`(cs * 160.0) as usize` (the cast truncates, saturating at 0). -/
def segSample (cs : ℚ) : Nat := (⌊cs * 160⌋).toNat

/-- The speech-sample extraction shared by `vad_filter_speech` (whisper.rs
lines 537-546) and `vad_monitor_loop` (lines 781-789): concatenate the sample
spans of the detected segments, each end clamped to the buffer length. -/
def extract_speech_samples (samples : List ℚ) (segs : List (ℚ × ℚ)) : List ℚ :=
  segs.foldl
    (fun speech seg =>
      let start_sample := segSample seg.1
      let end_sample := min (segSample seg.2) samples.length
      if start_sample < end_sample then
        speech ++ ((samples.drop start_sample).take (end_sample - start_sample))
      else speech)
    []

/-- `whisper.rs vad_filter_speech` (lines 470-578), given the segment list the
VAD model returned for `samples` (model loading / inference failure and the
no-segment case all pass the input through unchanged): extract the speech
samples, falling back to the untrimmed input when extraction is empty or the
filtered audio is shorter than 0.5 s. -/
def vad_filter_speech (samples : List ℚ) (segs : List (ℚ × ℚ)) : List ℚ :=
  if segs.length = 0 then samples
  else
    let speech_samples := extract_speech_samples samples segs
    if speech_samples = [] then samples
    else
      let filtered_duration : ℚ := (speech_samples.length : ℚ) / 16000
      if filtered_duration < 1/2 then samples
      else speech_samples

/-! ## The VAD streaming monitor (`whisper.rs vad_monitor_loop`) -/

/-- Minimum silence gap after speech to consider an utterance complete (s). -/
def MIN_SILENCE_GAP : ℚ := 1/2

/-- Minimum speech duration to bother transcribing (samples at 16kHz). -/
def MIN_SPEECH_SAMPLES : Nat := 8000

/-- Minimum audio to accumulate before running VAD (samples at 16kHz). -/
def MIN_VAD_SAMPLES : Nat := 16000

/-- The environment of one iteration of `vad_monitor_loop`: the current
`WHISPER_BUFFER` contents, the stop-signal reads, and the VAD / whisper
oracle outcomes (`segs` = detected segment timestamps in centiseconds,
`transcription` = `run_whisper`'s result, `none` for an `Err`). -/
structure PollIn where
  stopAtTop : Bool
  buffer : List ℚ
  vadFail : Bool
  segs : List (ℚ × ℚ)
  stopBefore : Bool
  transcription : Option (List Char)
deriving DecidableEq

/-- The local and shared state of `vad_monitor_loop`: `abs_position`,
`pending_audio`, `pending_start`, plus the globals `STREAMING_RESULTS` and
`STREAMING_CONSUMED`. -/
structure MonState where
  abs_position : Nat
  pending_audio : List ℚ
  pending_start : Nat
  results : List (List Char)
  consumed : Nat
deriving DecidableEq

/-- The monitor state at `start_streaming`: fresh cursors, cleared results. -/
def monInit : MonState :=
  { abs_position := 0, pending_audio := [], pending_start := 0
    results := [], consumed := 0 }

/-- The snapshot-read phase of a monitor iteration (whisper.rs lines
705-710): append the new samples and advance the absolute position. -/
def monAbsorb (s : MonState) (p : PollIn) : MonState :=
  let snap := snapshot_whisper_buffer p.buffer s.abs_position
  if snap.1 ≠ [] then
    { s with abs_position := snap.2, pending_audio := s.pending_audio ++ snap.1 }
  else s

/-- One iteration of `vad_monitor_loop` (whisper.rs lines 696-851) after the
top-of-loop stop check: returns the new state, the drained span of
`pending_audio` when an utterance was submitted for transcription (`none`
otherwise), and whether the loop breaks (stop signal seen just before
transcription). -/
def monStep (s : MonState) (p : PollIn) : MonState × Option (List ℚ) × Bool :=
  let s1 := monAbsorb s p
  if s1.pending_audio.length < MIN_VAD_SAMPLES then (s1, none, false)
  else if p.vadFail then (s1, none, false)
  else if p.segs = [] then (s1, none, false)
  else
    let pending_duration_sec : ℚ := (s1.pending_audio.length : ℚ) / 16000
    let last_seg_end_sec : ℚ := (p.segs.getLastD (0, 0)).2 * (1/100)
    let gap := pending_duration_sec - last_seg_end_sec
    if gap < MIN_SILENCE_GAP then (s1, none, false)
    else
      let speech_samples := extract_speech_samples s1.pending_audio p.segs
      if speech_samples.length < MIN_SPEECH_SAMPLES then (s1, none, false)
      else if p.stopBefore then (s1, none, true)
      else
        let results' :=
          match p.transcription with
          | some text => if text ≠ [] then s1.results ++ [text] else s1.results
          | none => s1.results
        let clear_to_sample :=
          min (segSample (p.segs.getLastD (0, 0)).2) s1.pending_audio.length
        ({ abs_position := s1.abs_position
           pending_audio := s1.pending_audio.drop clear_to_sample
           pending_start := s1.pending_start + clear_to_sample
           results := results'
           consumed := s1.pending_start + clear_to_sample },
         some (s1.pending_audio.take clear_to_sample), false)

/-- The whole monitor loop over a list of poll environments, collecting the
drained source spans of the submitted utterances in order.  A top-of-loop
stop signal or a pre-transcription stop signal ends the loop (`stop_streaming`
then joins the thread and reads the results). -/
def runMonitor : MonState → List PollIn → MonState × List (List ℚ)
  | s, [] => (s, [])
  | s, p :: rest =>
      if p.stopAtTop then (s, [])
      else
        let o := monStep s p
        if o.2.2 then (o.1, [])
        else
          let r := runMonitor o.1 rest
          (r.1, o.2.1.toList ++ r.2)

/-- The coupling invariant of the monitor with the whisper buffer `b`:
the consumed count mirrors `pending_start`, the pending window sits between
`pending_start` and `abs_position`, and equals that slice of `b`. -/
def StreamInv (b : List ℚ) (s : MonState) : Prop :=
  s.consumed = s.pending_start ∧
  s.pending_start + s.pending_audio.length = s.abs_position ∧
  s.abs_position ≤ b.length ∧
  s.pending_audio = (b.take s.abs_position).drop s.pending_start

/-- Monotone growth of the whisper buffer along a run: each poll's buffer
extends the previous one, and the final buffer `B` (after `stop_capture`'s
flush) extends the last poll's. -/
def buffersMono : List ℚ → List PollIn → List ℚ → Prop
  | b, [], B => b <+: B
  | b, p :: rest, B => b <+: p.buffer ∧ buffersMono p.buffer rest B

/-! ## Final text assembly (`lib.rs stop_recording`, `whisper.rs transcribe`) -/

/-- Rust `Vec<String>::join(sep)`. -/
def rustJoin (sep : List Char) : List (List Char) → List Char
  | [] => []
  | [x] => x
  | x :: y :: rest => x ++ sep ++ rustJoin sep (y :: rest)

/-- `lib.rs stop_recording` lines 268-286: the streaming prefix formed from
the accumulated fragments — Voxtral tokens carry their own spacing and are
concatenated directly, whisper segments are joined with a space. -/
def streaming_prefix_of (use_voxtral : Bool) (results : List (List Char)) :
    Option (List Char) :=
  if results = [] then none
  else some (if use_voxtral then rustJoin [] results else rustJoin [' '] results)

/-- `whisper.rs transcribe` lines 1046-1055: combine the streaming prefix
with the tail transcription (a space between a non-empty prefix and a
non-empty tail). -/
def combine_with_tail (streamPfx : Option (List Char)) (tail_text : List Char) :
    List Char :=
  match streamPfx with
  | some pfx =>
      if pfx ≠ [] then (if tail_text = [] then pfx else pfx ++ [' '] ++ tail_text)
      else tail_text
  | none => tail_text

/-- `whisper.rs transcribe` (lines 1000-1056), text-assembly part: with the
prepared tail samples and the tail transcription the inference thread would
return, produce the final text (just the prefix when no tail audio
remains). -/
def whisper_transcribe_text (tail_samples : List ℚ) (streamPfx : Option (List Char))
    (tail_text : List Char) : List Char :=
  if tail_samples = [] then streamPfx.getD []
  else combine_with_tail streamPfx tail_text

/-- The final raw text of `lib.rs stop_recording` on the whisper engine:
fragments joined with spaces, then combined with the tail transcription. -/
def stop_recording_whisper_text (results : List (List Char)) (tail_samples : List ℚ)
    (tail_text : List Char) : List Char :=
  whisper_transcribe_text tail_samples (streaming_prefix_of false results) tail_text

/-- The final raw text of `lib.rs stop_recording` on the Voxtral engine when
streaming consumed all audio (`consumed_samples == usize::MAX`): the directly
concatenated fragments, with no tail transcription. -/
def stop_recording_voxtral_stream_text (results : List (List Char)) : List Char :=
  (streaming_prefix_of true results).getD []

/-! ## Concrete sessions used to evaluate the definitions -/

/-- A rubato `process` oracle that fails on every call. -/
def procFail : List ℚ → Option (List ℚ) := fun _ => none

/-- A rubato `process` oracle that succeeds, returning a fixed block. -/
def procConst7 : List ℚ → Option (List ℚ) := fun _ => some [7]

/-- A rubato `process_partial` oracle that succeeds, returning a fixed block. -/
def procConst9 : List ℚ → Option (List ℚ) := fun _ => some [9]

/-- A flush oracle that succeeds with empty output. -/
def flushEmpty : List ℚ → Option (List ℚ) := fun _ => some []

/-- A 48kHz mono session right after `start_capture` spawned its thread. -/
def exCapRunning : CaptureState :=
  { is_stopping := false, audio_thread := true, audio_buffer := []
    whisper_buffer := [], resampler_state := some ⟨[], false⟩
    sample_rate := 48000, channels := 1 }

/-- `exCapRunning` after one callback whose resampler `process` call failed. -/
def exCapFailed : CaptureState :=
  input_callback procFail exCapRunning (List.replicate 1024 0)

/-- The `AudioData` that `stop_capture` returns for that failed session. -/
def exAudioNoPre : AudioData :=
  { samples := List.replicate 1024 0, sample_rate := 48000, channels := 1
    whisper_samples := none }

/-- A monitor state holding exactly one second of pending silence-split
audio. -/
def exMonPending : MonState :=
  { abs_position := 16000, pending_audio := List.replicate 16000 0
    pending_start := 0, results := [], consumed := 0 }

/-- A poll with no new samples whose VAD reports one speech segment ending at
0.5 s, leaving a silence gap of exactly 0.5 s. -/
def exPollBoundary : PollIn :=
  { stopAtTop := false, buffer := List.replicate 16000 0, vadFail := false
    segs := [(0, 50)], stopBefore := false
    transcription := some (String.toList "hi") }

/-! ## Theorems -/

/-- Each chunk produced by `chunksOf` is the corresponding slice of the
input. -/
theorem chunksOf_getElem? {α : Type} (c : Nat) (hc : 1 ≤ c) :
    ∀ (i : Nat) (l : List α),
      (chunksOf c l)[i]? =
        if i * c < l.length then some ((l.drop (i * c)).take c) else none := by
  intro i
  induction i with
  | zero =>
      intro l
      cases l with
      | nil => simp [chunksOf]
      | cons a t =>
          obtain ⟨c', rfl⟩ : ∃ c', c = c' + 1 := ⟨c - 1, by omega⟩
          simp [chunksOf, List.take_succ_cons]
  | succ i ih =>
      intro l
      cases l with
      | nil => simp [chunksOf]
      | cons a t =>
          obtain ⟨c', rfl⟩ : ∃ c', c = c' + 1 := ⟨c - 1, by omega⟩
          have harith : (i + 1) * (c' + 1) = (i * (c' + 1) + c') + 1 := by ring
          rw [chunksOf]
          simp only [List.getElem?_cons_succ, ih, List.length_drop,
            List.length_cons, harith, List.drop_succ_cons]
          rw [List.drop_drop]
          have : i * (c' + 1) + c' = c' + 1 - 1 + i * (c' + 1) := by omega
          rw [this]
          by_cases h : i * (c' + 1) < t.length - (c' + 1 - 1)
          · rw [if_pos h, if_pos (by omega)]
          · rw [if_neg h, if_neg (by omega)]

/-- C8: the downmix averages each interleaved frame in order — output sample
`i` is the arithmetic mean of frame `i` (the last, possibly shorter, frame is
averaged over its own length), there is no output past the last frame, and a
mono (or channel-less) input is returned unchanged. -/
theorem to_mono_is_ordered_frame_mean (data : List ℚ) (c i : Nat) :
    (c ≤ 1 → to_mono data c = data) ∧
    (2 ≤ c → i * c < data.length →
      (to_mono data c)[i]? =
        some (((data.drop (i * c)).take c).sum /
          (((data.drop (i * c)).take c).length : ℚ))) ∧
    (2 ≤ c → data.length ≤ i * c → (to_mono data c)[i]? = none) := by
  refine ⟨fun h => by simp [to_mono, h], fun hc hi => ?_, fun hc hi => ?_⟩
  · rw [to_mono, if_neg (by omega), List.getElem?_map,
      chunksOf_getElem? c (by omega), if_pos hi]
    rfl
  · rw [to_mono, if_neg (by omega), List.getElem?_map,
      chunksOf_getElem? c (by omega), if_neg (by omega)]
    rfl

/-- The RMS of a chunk is nonnegative. -/
theorem calculate_rms_nonneg (samples : List ℚ) : 0 ≤ calculate_rms samples := by
  unfold calculate_rms
  split
  · exact le_rfl
  · exact Real.sqrt_nonneg _

/-- Folding level updates from a value in `[0, 1]` stays in `[0, 1]`. -/
theorem level_fold_bounds (ops : List LevelOp) :
    ∀ x : ℝ, 0 ≤ x → x ≤ 1 →
      0 ≤ ops.foldl level_step x ∧ ops.foldl level_step x ≤ 1 := by
  induction ops with
  | nil => exact fun x h0 h1 => ⟨h0, h1⟩
  | cons op rest ih =>
      intro x h0 h1
      rw [List.foldl_cons]
      apply ih
      · cases op with
        | callback data =>
            have hrms := calculate_rms_nonneg data
            have hs0 : (0:ℝ) ≤ min (calculate_rms data * 15) 1 :=
              le_min (by nlinarith) zero_le_one
            simp only [level_step]
            nlinarith
        | stopReset => simp [level_step]
      · cases op with
        | callback data =>
            have hs1 : min (calculate_rms data * 15) 1 ≤ (1:ℝ) := min_le_right _ _
            have hrms := calculate_rms_nonneg data
            have hs0 : (0:ℝ) ≤ min (calculate_rms data * 15) 1 :=
              le_min (by nlinarith) zero_le_one
            simp only [level_step]
            nlinarith
        | stopReset => simp [level_step]

/-- C9: the smoothed audio level always lies in `[0, 1]`: it starts at `0.0`,
each callback sets it to `old×0.15 + s×0.85` with `s` the scaled RMS clamped
to at most `1.0`, and stop/reset store `0.0` — every operation preserves the
range. -/
theorem audio_level_in_unit_interval (ops : List LevelOp) :
    0 ≤ level_after ops ∧ level_after ops ≤ 1 :=
  level_fold_bounds ops 0 le_rfl zero_le_one

/-- C10: `snapshot_whisper_buffer` is total and in-bounds: it returns the
current length, its sample list is exactly the suffix of the buffer starting
at the cursor (element `i` of the snapshot is element `start + i` of the
buffer), and a cursor at or past the end yields the empty list. -/
theorem snapshot_whisper_buffer_is_exact_suffix (wbuf : List ℚ) (start : Nat) :
    (snapshot_whisper_buffer wbuf start).2 = wbuf.length ∧
    (snapshot_whisper_buffer wbuf start).1 = wbuf.drop start ∧
    (∀ i : Nat, (snapshot_whisper_buffer wbuf start).1[i]? = wbuf[start + i]?) ∧
    (wbuf.length ≤ start → (snapshot_whisper_buffer wbuf start).1 = []) := by
  by_cases h : wbuf.length > start
  · refine ⟨by simp [snapshot_whisper_buffer, h], by simp [snapshot_whisper_buffer, h],
      fun i => ?_, fun hle => by omega⟩
    simp [snapshot_whisper_buffer, h, List.getElem?_drop]
  · have hd : wbuf.drop start = [] := List.drop_eq_nil_of_le (by omega)
    refine ⟨by simp [snapshot_whisper_buffer, h], by simp [snapshot_whisper_buffer, h, hd],
      fun i => ?_, fun _ => by simp [snapshot_whisper_buffer, h]⟩
    simp [snapshot_whisper_buffer, h,
      List.getElem?_eq_none (show wbuf.length ≤ start + i by omega)]

/-- A centisecond timestamp of `0` maps to sample index `0`. -/
theorem segSample_zero : segSample 0 = 0 := by
  have h : ⌊(0:ℚ) * 160⌋ = 0 := by norm_num
  rw [segSample, h]
  rfl

/-- A centisecond timestamp of `50` (0.5 s) maps to sample index `8000`. -/
theorem segSample_fifty : segSample 50 = 8000 := by
  have h : ⌊(50:ℚ) * 160⌋ = 8000 := by norm_num
  rw [segSample, h]
  rfl

/-- On one detected segment covering `[0, 0.5s)` of a 40001-sample window the
extraction keeps exactly the first 8000 samples. -/
theorem extract_40001_single_segment :
    extract_speech_samples (List.replicate 40001 (0:ℚ)) [(0, 50)] =
      List.replicate 8000 (0:ℚ) := by
  rw [extract_speech_samples, List.foldl_cons, List.foldl_nil]
  simp only [segSample_zero, segSample_fifty, List.length_replicate]
  have hmin : min 8000 40001 = 8000 := by norm_num
  rw [hmin, if_pos (by omega), List.nil_append, List.drop_replicate,
    List.take_replicate]
  norm_num

/-- C6 counterexample: a 40001-sample window whose detected speech is its
first 8000 samples.  Keeping only the speech removes more than 80 % of the
window, yet `vad_filter_speech` returns the filtered samples, not the
untrimmed input — the code's guard is a 0.5 s minimum-duration check, not an
80 % removal check. -/
theorem vad_trim_over_80_percent_still_filters :
    ((List.replicate 40001 (0:ℚ)).length -
        (extract_speech_samples (List.replicate 40001 (0:ℚ)) [(0, 50)]).length : ℚ) /
      (List.replicate 40001 (0:ℚ)).length > 4/5 ∧
    vad_filter_speech (List.replicate 40001 (0:ℚ)) [(0, 50)] ≠
      List.replicate 40001 (0:ℚ) := by
  constructor
  · rw [extract_40001_single_segment]
    simp only [List.length_replicate]
    norm_num
  · rw [vad_filter_speech]
    simp only [List.length_cons, List.length_nil]
    rw [if_neg (by omega), extract_40001_single_segment]
    have hne : List.replicate 8000 (0:ℚ) ≠ [] := by
      intro h
      have := congrArg List.length h
      simp only [List.length_replicate, List.length_nil] at this
      omega
    rw [if_neg hne, if_neg (by rw [List.length_replicate]; norm_num)]
    intro h
    have := congrArg List.length h
    simp only [List.length_replicate] at this
    omega

/-- C6 (amended): whenever the extracted speech is shorter than 0.5 s (8000
samples) — in particular when no segment was detected or extraction is
empty — the untrimmed samples are returned instead of the filtered ones. -/
theorem vad_filter_short_speech_passes_through (samples : List ℚ)
    (segs : List (ℚ × ℚ))
    (h : (extract_speech_samples samples segs).length < 8000) :
    vad_filter_speech samples segs = samples := by
  rw [vad_filter_speech]
  by_cases hseg : segs.length = 0
  · rw [if_pos hseg]
  · rw [if_neg hseg]
    by_cases hsp : extract_speech_samples samples segs = []
    · rw [if_pos hsp]
    · rw [if_neg hsp, if_pos ?_]
      rw [div_lt_iff₀ (by norm_num)]
      have : ((extract_speech_samples samples segs).length : ℚ) < 8000 := by
        exact_mod_cast h
      linarith

/-- C6 witness: concrete application of the amended guard. -/
theorem vad_filter_short_speech_passes_through_witness :
    vad_filter_speech [(1:ℚ)] [(0, 50)] = [(1:ℚ)] :=
  vad_filter_short_speech_passes_through [(1:ℚ)] [(0, 50)] (by
    rw [extract_speech_samples, List.foldl_cons, List.foldl_nil]
    simp only [segSample_zero, segSample_fifty, List.length_cons, List.length_nil]
    split <;> simp)

/-- C3: `start_capture` fails with `AlreadyRunning` — changing nothing — when
a stop is finalizing (`IS_STOPPING`) or a session is active (`AUDIO_THREAD`);
and from an idle state the first start succeeds and activates the session,
after which any second start fails with `AlreadyRunning`: two sequentialized
start attempts yield exactly one active session. -/
theorem start_capture_already_running (sr ch : Nat) (createOk : Bool)
    (s : CaptureState) :
    ((s.is_stopping = true ∨ s.audio_thread = true) →
      start_capture sr ch createOk s = .error .AlreadyRunning) ∧
    (s.is_stopping = false → s.audio_thread = false →
      ∃ s' : CaptureState, start_capture sr ch createOk s = .ok s' ∧
        s'.audio_thread = true ∧
        ∀ (sr₂ ch₂ : Nat) (co₂ : Bool),
          start_capture sr₂ ch₂ co₂ s' = .error .AlreadyRunning) := by
  constructor
  · rintro (h | h) <;> simp [start_capture, h]
  · intro h1 h2
    refine ⟨{ is_stopping := false, audio_thread := true, audio_buffer := []
              whisper_buffer := []
              resampler_state :=
                if sr ≠ 16000 ∧ createOk then some ⟨[], false⟩ else none
              sample_rate := sr, channels := ch }, ?_, rfl, fun sr₂ ch₂ co₂ => ?_⟩
    · simp [start_capture, h1, h2]
    · simp [start_capture]

/-- Dropping while `p` holds is idempotent. -/
theorem dropWhile_idem (p : Char → Bool) (l : List Char) :
    (l.dropWhile p).dropWhile p = l.dropWhile p := by
  induction l with
  | nil => rfl
  | cons a t ih =>
      by_cases h : p a
      · simp [List.dropWhile_cons, h, ih]
      · simp [List.dropWhile_cons, h]

/-- The head of `dropWhile p l` never satisfies `p`. -/
theorem dropWhile_head?_false (p : Char → Bool) (l : List Char) (a : Char)
    (h : (l.dropWhile p).head? = some a) : p a = false := by
  induction l with
  | nil => simp at h
  | cons b t ih =>
      by_cases hb : p b
      · rw [List.dropWhile_cons, if_pos hb] at h
        exact ih h
      · rw [List.dropWhile_cons, if_neg hb] at h
        simp at h
        subst h
        simpa using hb

/-- A list whose head fails `p` is unchanged by `dropWhile p`. -/
theorem dropWhile_eq_self_of_head (p : Char → Bool) (l : List Char)
    (h : ∀ a, l.head? = some a → p a = false) : l.dropWhile p = l := by
  cases l with
  | nil => rfl
  | cons a t => simp [List.dropWhile_cons, h a rfl]

/-- Right-trimming preserves the head of a non-empty result. -/
theorem head?_dropRight (p : Char → Bool) (m : List Char)
    (hne : (m.reverse.dropWhile p).reverse ≠ []) :
    ((m.reverse.dropWhile p).reverse).head? = m.head? := by
  set r := m.reverse.dropWhile p with hr
  have hrne : r ≠ [] := fun h => hne (by rw [h]; rfl)
  obtain ⟨t, ht⟩ := List.dropWhile_suffix (l := m.reverse) p
  rw [List.head?_reverse]
  have hlast : r.getLast? = (t ++ r).getLast? := by
    rw [List.getLast?_append]
    cases hcase : r.getLast? with
    | none => exact absurd (List.getLast?_eq_none_iff.mp hcase) hrne
    | some v => rfl
  rw [hlast, ht, List.getLast?_reverse]

/-- Rust `str::trim` is idempotent. -/
theorem trimChars_idem (l : List Char) : trimChars (trimChars l) = trimChars l := by
  set p := Char.isWhitespace
  set m := l.dropWhile p with hm
  set r := m.reverse.dropWhile p with hr
  have hTdef : trimChars l = r.reverse := rfl
  by_cases hTnil : r.reverse = []
  · rw [trimChars, hTdef, hTnil]
    rfl
  · have hstep1 : (r.reverse).dropWhile p = r.reverse := by
      apply dropWhile_eq_self_of_head
      intro a ha
      rw [head?_dropRight p m hTnil] at ha
      exact dropWhile_head?_false p l a (hm ▸ ha)
    rw [trimChars, hTdef, hstep1, List.reverse_reverse, hr, dropWhile_idem]

/-- C4: whenever the raw whisper result, trimmed and lowercased, equals one of
the fixed hallucination phrases optionally followed by `.` or `!`,
`run_whisper` returns the empty string instead of that phrase. -/
theorem run_whisper_suppresses_hallucinations (raw : List Char)
    (h : ∃ phrase ∈ HALLUCINATION_PHRASES,
        (trimChars raw).map Char.toLower = phrase ∨
        (trimChars raw).map Char.toLower = phrase ++ ['.'] ∨
        (trimChars raw).map Char.toLower = phrase ++ ['!']) :
    run_whisper_result raw = [] := by
  obtain ⟨phrase, hmem, hcase⟩ := h
  have hpne : phrase ≠ [] := by
    have : ∀ q ∈ HALLUCINATION_PHRASES, q ≠ [] := by decide
    exact this phrase hmem
  rw [run_whisper_result, if_pos ?_]
  rw [is_likely_hallucination]
  simp only [trimChars_idem]
  have hne : (trimChars raw).map Char.toLower ≠ [] := by
    rcases hcase with h | h | h <;> rw [h] <;> simp [hpne]
  rw [if_neg hne, List.any_eq_true]
  refine ⟨phrase, hmem, ?_⟩
  rcases hcase with h | h | h <;> simp [h]

/-- C4 witness: a concrete raw result normalizing to a stock phrase is
suppressed. -/
theorem run_whisper_suppresses_hallucinations_witness :
    run_whisper_result (String.toList " Thank you. ") = [] :=
  run_whisper_suppresses_hallucinations (String.toList " Thank you. ") (by decide)

/-- The two-or-more equation of `rustJoin`. -/
theorem rustJoin_cons_cons (sep x y : List Char) (rest : List (List Char)) :
    rustJoin sep (x :: y :: rest) = x ++ sep ++ rustJoin sep (y :: rest) := rfl

/-- The `some` case of `combine_with_tail`. -/
theorem combine_with_tail_some (pfx tail_text : List Char) :
    combine_with_tail (some pfx) tail_text =
      if pfx ≠ [] then (if tail_text = [] then pfx else pfx ++ [' '] ++ tail_text)
      else tail_text := rfl

/-- The `none` case of `combine_with_tail`. -/
theorem combine_with_tail_none (tail_text : List Char) :
    combine_with_tail none tail_text = tail_text := rfl

/-- Rust `join`: appending one more piece appends a separator and the piece. -/
theorem rustJoin_append_singleton (sep : List Char) (l : List (List Char))
    (x : List Char) (hl : l ≠ []) :
    rustJoin sep (l ++ [x]) = rustJoin sep l ++ sep ++ x := by
  induction l with
  | nil => exact absurd rfl hl
  | cons a t ih =>
      cases t with
      | nil => simp [rustJoin]
      | cons b u =>
          have ihh := ih (by simp)
          calc rustJoin sep ((a :: b :: u) ++ [x])
              = a ++ sep ++ rustJoin sep ((b :: u) ++ [x]) :=
                rustJoin_cons_cons sep a b (u ++ [x])
            _ = a ++ sep ++ (rustJoin sep (b :: u) ++ sep ++ x) := by rw [ihh]
            _ = (a ++ sep ++ rustJoin sep (b :: u)) ++ sep ++ x := by
                simp [List.append_assoc]
            _ = rustJoin sep (a :: b :: u) ++ sep ++ x := by
                rw [rustJoin_cons_cons]

/-- Rust `join("")` concatenates the pieces directly. -/
theorem rustJoin_nil_sep (l : List (List Char)) : rustJoin [] l = l.flatten := by
  induction l with
  | nil => rfl
  | cons a t ih =>
      cases t with
      | nil => simp [rustJoin]
      | cons b u =>
          simp only [rustJoin, List.flatten_cons] at ih ⊢
          rw [← ih]
          simp [rustJoin]

/-- A join whose first piece is non-empty is non-empty. -/
theorem rustJoin_ne_nil (sep : List Char) (x : List Char) (t : List (List Char))
    (hx : x ≠ []) : rustJoin sep (x :: t) ≠ [] := by
  cases t with
  | nil => exact hx
  | cons b u => simp [rustJoin, hx]

/-- C1: a completed session's final raw text is always the ordered streaming
fragments followed by the tail transcription.  Whisper fragments are joined
with single spaces and a non-empty fragment prefix meets a non-empty tail
with one inserted space (the final text is then exactly the space-join of
`fragments ++ [tail]`), while a Voxtral streaming session concatenates its
fragments directly; no text crosses the fragments/tail boundary. -/
theorem final_text_is_fragments_then_tail (results : List (List Char))
    (ts : List ℚ) (tt : List Char) (hne : ∀ r ∈ results, r ≠ []) :
    (results ≠ [] → tt ≠ [] → ts ≠ [] →
      stop_recording_whisper_text results ts tt = rustJoin [' '] (results ++ [tt])) ∧
    (results ≠ [] → (tt = [] ∨ ts = []) →
      stop_recording_whisper_text results ts tt = rustJoin [' '] results) ∧
    (results = [] →
      stop_recording_whisper_text results ts tt = (if ts = [] then [] else tt)) ∧
    (stop_recording_voxtral_stream_text results = results.flatten) := by
  refine ⟨?_, ?_, ?_, ?_⟩
  · intro hr htt hts
    obtain ⟨x, t, rfl⟩ : ∃ x t, results = x :: t := by
      cases results with
      | nil => exact absurd rfl hr
      | cons x t => exact ⟨x, t, rfl⟩
    have hjne : rustJoin [' '] (x :: t) ≠ [] :=
      rustJoin_ne_nil [' '] x t (hne x (by simp))
    have hpfx : streaming_prefix_of false (x :: t) = some (rustJoin [' '] (x :: t)) := by
      rw [streaming_prefix_of, if_neg (by simp), if_neg Bool.false_ne_true]
    rw [stop_recording_whisper_text, whisper_transcribe_text, hpfx, if_neg hts,
      combine_with_tail_some, if_pos hjne, if_neg htt,
      rustJoin_append_singleton [' '] (x :: t) tt (by simp)]
  · intro hr hcase
    obtain ⟨x, t, rfl⟩ : ∃ x t, results = x :: t := by
      cases results with
      | nil => exact absurd rfl hr
      | cons x t => exact ⟨x, t, rfl⟩
    have hjne : rustJoin [' '] (x :: t) ≠ [] :=
      rustJoin_ne_nil [' '] x t (hne x (by simp))
    have hpfx : streaming_prefix_of false (x :: t) = some (rustJoin [' '] (x :: t)) := by
      rw [streaming_prefix_of, if_neg (by simp), if_neg Bool.false_ne_true]
    rw [stop_recording_whisper_text, whisper_transcribe_text, hpfx]
    rcases hcase with h | h
    · by_cases hts : ts = []
      · rw [if_pos hts, Option.getD_some]
      · rw [if_neg hts, combine_with_tail_some, if_pos hjne, if_pos h]
    · rw [if_pos h, Option.getD_some]
  · intro hr
    subst hr
    rw [stop_recording_whisper_text, whisper_transcribe_text, streaming_prefix_of,
      if_pos rfl]
    by_cases hts : ts = []
    · rw [if_pos hts, if_pos hts]
      rfl
    · rw [if_neg hts, if_neg hts, combine_with_tail_none]
  · rw [stop_recording_voxtral_stream_text, streaming_prefix_of]
    by_cases hr : results = []
    · subst hr
      rfl
    · rw [if_neg hr, if_pos rfl, Option.getD_some, rustJoin_nil_sep]

/-- C1 witness: one fragment plus a non-empty tail joins with one space. -/
theorem final_text_is_fragments_then_tail_witness :
    stop_recording_whisper_text [String.toList "hi"] [(0:ℚ)] (String.toList "yo") =
      rustJoin [' '] [String.toList "hi", String.toList "yo"] :=
  (final_text_is_fragments_then_tail [String.toList "hi"] [(0:ℚ)]
    (String.toList "yo") (by decide)).1 (by simp) (by decide) (by simp)

/-- On one detected segment covering `[0, 0.5s)` of a window of at least 8000
samples of silence, the extraction keeps exactly the first 8000 samples. -/
theorem extract_replicate_single_segment (n : Nat) (h : 8000 ≤ n) :
    extract_speech_samples (List.replicate n (0:ℚ)) [(0, 50)] =
      List.replicate 8000 (0:ℚ) := by
  rw [extract_speech_samples, List.foldl_cons, List.foldl_nil]
  simp only [segSample_zero, segSample_fifty, List.length_replicate]
  have hmin : min 8000 n = 8000 := by omega
  rw [hmin, if_pos (by omega), List.nil_append, List.drop_replicate,
    List.take_replicate]
  congr 1

/-- C7 (amended): an utterance is submitted for transcription in a monitor
iteration exactly when — after absorbing the new samples — at least one
second of audio is pending, the VAD succeeded with a non-empty segment list,
the silence gap after the last segment is at least the 0.5 s threshold, the
extracted speech reaches the 0.5 s minimum, and no stop signal intervened;
when nothing is submitted the state is exactly the absorbed state: the audio
is kept for later polls. -/
theorem utterance_submitted_iff (s : MonState) (p : PollIn) :
    ((monStep s p).2.1.isSome = true ↔
      (MIN_VAD_SAMPLES ≤ (monAbsorb s p).pending_audio.length ∧
       p.vadFail = false ∧ p.segs ≠ [] ∧
       MIN_SILENCE_GAP ≤
         ((monAbsorb s p).pending_audio.length : ℚ) / 16000 -
           (p.segs.getLastD (0, 0)).2 * (1/100) ∧
       MIN_SPEECH_SAMPLES ≤
         (extract_speech_samples (monAbsorb s p).pending_audio p.segs).length ∧
       p.stopBefore = false)) ∧
    ((monStep s p).2.1 = none → (monStep s p).1 = monAbsorb s p) := by
  constructor
  · simp only [monStep]
    split_ifs with h1 h2 h3 h4 h5 h6
    · simp only [Option.isSome_none, Bool.false_eq_true, false_iff]
      rintro ⟨hc, -⟩
      omega
    · simp only [Option.isSome_none, Bool.false_eq_true, false_iff]
      rintro ⟨-, hc, -⟩
      rw [h2] at hc
      exact absurd hc (by simp)
    · simp only [Option.isSome_none, Bool.false_eq_true, false_iff]
      rintro ⟨-, -, hc, -⟩
      exact hc h3
    · simp only [Option.isSome_none, Bool.false_eq_true, false_iff]
      rintro ⟨-, -, -, hc, -⟩
      linarith
    · simp only [Option.isSome_none, Bool.false_eq_true, false_iff]
      rintro ⟨-, -, -, -, hc, -⟩
      omega
    · simp only [Option.isSome_none, Bool.false_eq_true, false_iff]
      rintro ⟨-, -, -, -, -, hc⟩
      rw [h6] at hc
      exact absurd hc (by simp)
    · simp only [Option.isSome_some, true_iff]
      refine ⟨by omega, ?_, h3, by linarith, by omega, ?_⟩
      · cases hv : p.vadFail
        · rfl
        · exact absurd hv h2
      · cases hs : p.stopBefore
        · rfl
        · exact absurd hs h6
  · simp only [monStep]
    split_ifs <;> intro h
    · rfl
    · rfl
    · rfl
    · rfl
    · rfl
    · rfl
    · exact absurd h (by simp)

/-- C7 counterexample: with one second of pending audio whose single speech
segment ends at 0.5 s, the silence gap equals the 0.5 s threshold exactly —
it does not exceed it — and yet the iteration submits the utterance for
transcription. -/
theorem utterance_submitted_at_exact_threshold :
    ((exMonPending.pending_audio.length : ℚ) / 16000 -
        (exPollBoundary.segs.getLastD (0, 0)).2 * (1/100) = MIN_SILENCE_GAP) ∧
    8000 ≤ (extract_speech_samples (monAbsorb exMonPending exPollBoundary).pending_audio
        exPollBoundary.segs).length ∧
    (monStep exMonPending exPollBoundary).2.1.isSome = true := by
  have habsorb : monAbsorb exMonPending exPollBoundary = exMonPending := by
    rw [monAbsorb]
    simp only [exMonPending, exPollBoundary, snapshot_whisper_buffer,
      List.length_replicate]
    norm_num
  have hgap : ((exMonPending.pending_audio.length : ℚ) / 16000 -
      (exPollBoundary.segs.getLastD (0, 0)).2 * (1/100) = MIN_SILENCE_GAP) := by
    simp only [exMonPending, exPollBoundary, List.getLastD, MIN_SILENCE_GAP,
      List.length_replicate]
    norm_num
  have hextract : extract_speech_samples exMonPending.pending_audio
      exPollBoundary.segs = List.replicate 8000 (0:ℚ) := by
    show extract_speech_samples (List.replicate 16000 (0:ℚ)) [(0, 50)] = _
    exact extract_replicate_single_segment 16000 (by omega)
  have h1 : ¬ (exMonPending.pending_audio.length < MIN_VAD_SAMPLES) := by
    simp only [exMonPending, List.length_replicate, MIN_VAD_SAMPLES]
    omega
  have h2 : ¬ (exPollBoundary.vadFail = true) := by decide
  have h3 : ¬ (exPollBoundary.segs = []) := by decide
  have h4 : ¬ ((exMonPending.pending_audio.length : ℚ) / 16000 -
      (exPollBoundary.segs.getLastD (0, 0)).2 * (1/100) < MIN_SILENCE_GAP) := by
    rw [hgap]
    exact lt_irrefl _
  have h5 : ¬ ((extract_speech_samples exMonPending.pending_audio
      exPollBoundary.segs).length < MIN_SPEECH_SAMPLES) := by
    rw [hextract, List.length_replicate, MIN_SPEECH_SAMPLES]
    omega
  have h6 : ¬ (exPollBoundary.stopBefore = true) := by decide
  refine ⟨hgap, by rw [habsorb, hextract, List.length_replicate], ?_⟩
  simp only [monStep, habsorb]
  rw [if_neg h1, if_neg h2, if_neg h3, if_neg h4, if_neg h5, if_neg h6]
  rfl

/-- `trim_tail` is suffix extraction: in all three cases of the code it
returns exactly the suffix of the buffer from the consumed count on. -/
theorem trim_tail_eq_drop (ws : List ℚ) (c : Nat) : trim_tail ws c = ws.drop c := by
  rw [trim_tail]
  by_cases h0 : c > 0
  · rw [if_pos h0]
    by_cases hlen : c < ws.length
    · rw [if_pos hlen]
    · rw [if_neg hlen, eq_comm]
      exact List.drop_eq_nil_of_le (by omega)
  · rw [if_neg h0]
    have : c = 0 := by omega
    rw [this, List.drop_zero]

/-- The stream invariant transports along buffer growth. -/
theorem streamInv_mono (b b' : List ℚ) (s : MonState) (hinv : StreamInv b s)
    (hp : b <+: b') : StreamInv b' s := by
  obtain ⟨hc, hlen, hle, hpend⟩ := hinv
  obtain ⟨t, rfl⟩ := hp
  refine ⟨hc, hlen, by simp; omega, ?_⟩
  rw [List.take_append_of_le_length hle]
  exact hpend

/-- Absorbing a snapshot preserves the stream invariant with respect to the
poll's buffer. -/
theorem streamInv_monAbsorb (s : MonState) (p : PollIn)
    (hinv : StreamInv p.buffer s) : StreamInv p.buffer (monAbsorb s p) := by
  obtain ⟨hc, hlen, hle, hpend⟩ := hinv
  rw [monAbsorb]
  simp only [snapshot_whisper_buffer]
  by_cases h : p.buffer.length > s.abs_position
  · rw [if_pos h]
    have hdrop : p.buffer.drop s.abs_position ≠ [] := by
      rw [ne_eq, List.drop_eq_nil_iff]
      omega
    rw [if_pos hdrop]
    have hps : s.pending_start ≤ s.abs_position := by omega
    refine ⟨hc, ?_, le_rfl, ?_⟩
    · simp only [List.length_append, List.length_drop]
      omega
    · have htk : (p.buffer.take s.abs_position).length = s.abs_position := by
        rw [List.length_take]
        omega
      calc s.pending_audio ++ p.buffer.drop s.abs_position
          = (p.buffer.take s.abs_position).drop s.pending_start ++
              p.buffer.drop s.abs_position := by rw [hpend]
        _ = (p.buffer.take s.abs_position ++ p.buffer.drop s.abs_position).drop
              s.pending_start := by
            rw [List.drop_append_of_le_length (by omega)]
        _ = p.buffer.drop s.pending_start := by rw [List.take_append_drop]
        _ = (p.buffer.take p.buffer.length).drop s.pending_start := by
            rw [List.take_length]
  · rw [if_neg h, if_neg (by simp)]
    exact ⟨hc, hlen, hle, hpend⟩

/-- `monAbsorb` never changes the cursor, the fragment list or the consumed
count. -/
theorem monAbsorb_same (s : MonState) (p : PollIn) :
    (monAbsorb s p).consumed = s.consumed ∧
    (monAbsorb s p).pending_start = s.pending_start ∧
    (monAbsorb s p).results = s.results := by
  rw [monAbsorb]
  split <;> exact ⟨rfl, rfl, rfl⟩

/-- One monitor step preserves the stream invariant; the consumed count is
monotone, unchanged when nothing was submitted, and the drained span of a
submission is exactly the newly consumed slice of the buffer. -/
theorem streamInv_monStep (s : MonState) (p : PollIn)
    (hinv : StreamInv p.buffer s) :
    StreamInv p.buffer (monStep s p).1 ∧
    s.consumed ≤ (monStep s p).1.consumed ∧
    ((monStep s p).2.1 = none → (monStep s p).1.consumed = s.consumed) ∧
    (∀ d, (monStep s p).2.1 = some d →
      d = (p.buffer.take (monStep s p).1.consumed).drop s.consumed) ∧
    ((monStep s p).2.2 = true → (monStep s p).2.1 = none) := by
  have hinv1 := streamInv_monAbsorb s p hinv
  have hsame := monAbsorb_same s p
  obtain ⟨hc, hlen, hle, hpend⟩ := hinv1
  simp only [monStep]
  set s1 := monAbsorb s p with hs1
  have heasy : ∀ brk : Bool,
      StreamInv p.buffer (s1, (none : Option (List ℚ)), brk).1 ∧
      s.consumed ≤ (s1, (none : Option (List ℚ)), brk).1.consumed ∧
      ((s1, (none : Option (List ℚ)), brk).2.1 = none →
        (s1, (none : Option (List ℚ)), brk).1.consumed = s.consumed) ∧
      (∀ d, (s1, (none : Option (List ℚ)), brk).2.1 = some d →
        d = (p.buffer.take (s1, (none : Option (List ℚ)), brk).1.consumed).drop
          s.consumed) ∧
      ((s1, (none : Option (List ℚ)), brk).2.2 = true →
        (s1, (none : Option (List ℚ)), brk).2.1 = none) := by
    intro brk
    exact ⟨⟨hc, hlen, hle, hpend⟩, hsame.1.ge, fun _ => hsame.1,
      fun d hd => Option.noConfusion hd, fun _ => rfl⟩
  by_cases h1 : s1.pending_audio.length < MIN_VAD_SAMPLES
  · rw [if_pos h1]
    exact heasy false
  rw [if_neg h1]
  by_cases h2 : p.vadFail
  · rw [if_pos h2]
    exact heasy false
  rw [if_neg h2]
  by_cases h3 : p.segs = []
  · rw [if_pos h3]
    exact heasy false
  rw [if_neg h3]
  by_cases h4 : (s1.pending_audio.length : ℚ) / 16000 -
      (p.segs.getLastD (0, 0)).2 * (1/100) < MIN_SILENCE_GAP
  · rw [if_pos h4]
    exact heasy false
  rw [if_neg h4]
  by_cases h5 : (extract_speech_samples s1.pending_audio p.segs).length <
      MIN_SPEECH_SAMPLES
  · rw [if_pos h5]
    exact heasy false
  rw [if_neg h5]
  by_cases h6 : p.stopBefore
  · rw [if_pos h6]
    exact heasy true
  rw [if_neg h6]
  -- the submit branch
  set clear := min (segSample (p.segs.getLastD (0, 0)).2) s1.pending_audio.length
    with hclear
  have hclear_le : clear ≤ s1.pending_audio.length := min_le_right _ _
  refine ⟨⟨rfl, ?_, hle, ?_⟩, ?_, ?_, ?_, ?_⟩
  · simp only [List.length_drop]
    omega
  · show s1.pending_audio.drop clear =
      (p.buffer.take s1.abs_position).drop (s1.pending_start + clear)
    rw [hpend, List.drop_drop]
  · show s.consumed ≤ s1.pending_start + clear
    rw [← hsame.1, hc]
    omega
  · intro hnone
    exact Option.noConfusion hnone
  · intro d hd
    have hd2 : s1.pending_audio.take clear = d := Option.some.inj hd
    subst hd2
    show s1.pending_audio.take clear =
      (p.buffer.take (s1.pending_start + clear)).drop s.consumed
    rw [hpend, List.drop_take, List.take_take, min_eq_left (by omega),
      List.drop_take, ← hsame.1, hc]
    congr 1
    omega
  · intro hfalse
    exact Bool.noConfusion hfalse

/-- The buffer at the start of a run is a prefix of the final buffer. -/
theorem buffersMono_le (polls : List PollIn) :
    ∀ (b B : List ℚ), buffersMono b polls B → b <+: B := by
  induction polls with
  | nil => exact fun b B h => h
  | cons p rest ih => exact fun b B h => h.1.trans (ih p.buffer B h.2)

/-- Gluing adjacent consumed slices of the same buffer. -/
theorem take_drop_glue (B : List ℚ) (a b c : Nat) (hab : a ≤ b) (hbc : b ≤ c)
    (hbB : b ≤ B.length) :
    (B.take b).drop a ++ (B.take c).drop b = (B.take c).drop a := by
  have hXb : (B.take c).take b = B.take b := by
    rw [List.take_take, min_eq_left hbc]
  have hlenXb : ((B.take c).take b).length = b := by
    rw [hXb, List.length_take]
    omega
  calc (B.take b).drop a ++ (B.take c).drop b
      = ((B.take c).take b).drop a ++ (B.take c).drop b := by rw [hXb]
    _ = ((B.take c).take b ++ (B.take c).drop b).drop a := by
        rw [List.drop_append_of_le_length (by omega)]
    _ = (B.take c).drop a := by rw [List.take_append_drop]

/-- The run-level invariant: starting from a state coupled to buffer `b`, a
monotone run ends coupled to the final buffer `B`, the consumed count is
monotone, and the concatenated drained spans are exactly the slice of `B`
between the initial and final consumed counts. -/
theorem runMonitor_inv (polls : List PollIn) :
    ∀ (s : MonState) (b B : List ℚ), StreamInv b s → buffersMono b polls B →
      StreamInv B (runMonitor s polls).1 ∧
      s.consumed ≤ (runMonitor s polls).1.consumed ∧
      (runMonitor s polls).2.flatten =
        (B.take (runMonitor s polls).1.consumed).drop s.consumed := by
  induction polls with
  | nil =>
      intro s b B hinv hm
      refine ⟨streamInv_mono b B s hinv hm, le_rfl, ?_⟩
      rw [eq_comm]
      simp only [runMonitor, List.flatten_nil]
      exact List.drop_eq_nil_of_le (List.length_take_le _ _)
  | cons p rest ih =>
      intro s b B hinv hm
      have hpb : StreamInv p.buffer s := streamInv_mono b p.buffer s hinv hm.1
      have hpB : p.buffer <+: B := buffersMono_le rest p.buffer B hm.2
      rw [runMonitor]
      by_cases htop : p.stopAtTop
      · rw [if_pos htop]
        refine ⟨streamInv_mono p.buffer B s hpb hpB, le_rfl, ?_⟩
        rw [eq_comm]
        simp only [List.flatten_nil]
        exact List.drop_eq_nil_of_le (List.length_take_le _ _)
      · rw [if_neg htop]
        obtain ⟨hinv', hmono', hnone', hsome', hbrknone⟩ := streamInv_monStep s p hpb
        have hcons_lenB : (monStep s p).1.consumed ≤ B.length := by
          obtain ⟨hc, hlen, hle, -⟩ := hinv'
          have := hpB.length_le
          omega
        by_cases hbrk : (monStep s p).2.2
        · rw [if_pos hbrk]
          refine ⟨streamInv_mono p.buffer B _ hinv' hpB, hmono', ?_⟩
          rw [hnone' (hbrknone hbrk), eq_comm]
          simp only [List.flatten_nil]
          exact List.drop_eq_nil_of_le (List.length_take_le _ _)
        · rw [if_neg hbrk]
          obtain ⟨ihinv, ihmono, ihspans⟩ :=
            ih (monStep s p).1 p.buffer B hinv' hm.2
          refine ⟨ihinv, le_trans hmono' ihmono, ?_⟩
          cases hspan : (monStep s p).2.1 with
          | none =>
              simp only [hspan, Option.toList_none, List.nil_append, ihspans,
                hnone' hspan]
          | some d =>
              have hd := hsome' d hspan
              have hdB : d = (B.take (monStep s p).1.consumed).drop s.consumed := by
                rw [hd]
                obtain ⟨t, rfl⟩ := hpB
                rw [List.take_append_of_le_length ?_]
                obtain ⟨hc, hlen, hle, -⟩ := hinv'
                omega
              have hc0 : s.consumed ≤ (monStep s p).1.consumed := hmono'
              simp only [hspan, Option.toList_some, List.singleton_append,
                List.flatten_cons, ihspans, hdB]
              exact take_drop_glue B s.consumed (monStep s p).1.consumed
                (runMonitor (monStep s p).1 rest).1.consumed hc0 ihmono hcons_lenB

/-- C2: for a session using streaming transcription (a run of the monitor
over the monotonically growing normalized buffer, with final buffer `B`),
the concatenated source spans of the streamed fragments are exactly the
consumed prefix of `B`, and followed by the tail they reconstruct all of `B`
with no gap and no overlap; the consumed count never exceeds the buffer
length, and the tail `lib.rs` hands to final transcription (`trim_tail`) is
exactly the suffix of `B` from the consumed count (empty when the consumed
count is at least the buffer length). -/
theorem streaming_tail_partition (polls : List PollIn) (B : List ℚ)
    (h : buffersMono [] polls B) :
    (runMonitor monInit polls).2.flatten =
        B.take (runMonitor monInit polls).1.consumed ∧
    (runMonitor monInit polls).2.flatten ++
        B.drop (runMonitor monInit polls).1.consumed = B ∧
    (runMonitor monInit polls).1.consumed ≤ B.length ∧
    trim_tail B (runMonitor monInit polls).1.consumed =
        B.drop (runMonitor monInit polls).1.consumed ∧
    (B.length ≤ (runMonitor monInit polls).1.consumed →
        trim_tail B (runMonitor monInit polls).1.consumed = []) := by
  have hinit : StreamInv [] monInit := by
    refine ⟨rfl, rfl, le_rfl, rfl⟩
  obtain ⟨hinv, -, hspans⟩ := runMonitor_inv polls monInit [] B hinit h
  obtain ⟨hc, hlen, hle, -⟩ := hinv
  have hconsB : (runMonitor monInit polls).1.consumed ≤ B.length := by omega
  have htake : (runMonitor monInit polls).2.flatten =
      B.take (runMonitor monInit polls).1.consumed := by
    rw [hspans]
    simp only [monInit, List.drop_zero]
  refine ⟨htake, ?_, hconsB, trim_tail_eq_drop B _, fun hge => ?_⟩
  · rw [htake, List.take_append_drop]
  · rw [trim_tail_eq_drop]
    exact List.drop_eq_nil_of_le hge

/-- C2 witness: the empty run against a one-sample final buffer. -/
theorem streaming_tail_partition_witness :
    (runMonitor monInit []).2.flatten =
        [(0:ℚ)].take (runMonitor monInit []).1.consumed ∧
    (runMonitor monInit []).2.flatten ++
        [(0:ℚ)].drop (runMonitor monInit []).1.consumed = [(0:ℚ)] ∧
    (runMonitor monInit []).1.consumed ≤ [(0:ℚ)].length ∧
    trim_tail [(0:ℚ)] (runMonitor monInit []).1.consumed =
        [(0:ℚ)].drop (runMonitor monInit []).1.consumed ∧
    ([(0:ℚ)].length ≤ (runMonitor monInit []).1.consumed →
        trim_tail [(0:ℚ)] (runMonitor monInit []).1.consumed = []) :=
  streaming_tail_partition [] [(0:ℚ)] ⟨[(0:ℚ)], rfl⟩

/-- A one-chunk accumulator drained through a failing resampler: the chunk is
consumed, nothing is appended, and failure is reported. -/
theorem drain_resampler_procFail :
    drain_resampler procFail ⟨[] ++ List.replicate 1024 (0:ℚ), false⟩ [] =
      (⟨[], false⟩, [], false) := by
  rw [drain_resampler, if_pos (by simp only [List.nil_append,
    List.length_replicate, chunkSize]; omega)]
  simp only [procFail, List.nil_append, List.drop_replicate, chunkSize]
  norm_num

/-- Mono conversion is the identity on a single-channel chunk. -/
theorem to_mono_one (data : List ℚ) : to_mono data 1 = data := by
  rw [to_mono, if_pos (by omega)]

/-- Mono conversion of the empty chunk is empty. -/
theorem to_mono_nil (channels : Nat) : to_mono [] channels = [] := by
  rw [to_mono]
  split
  · rfl
  · rw [chunksOf]
    rfl

/-- The failed example session state, evaluated. -/
theorem exCapFailed_eval :
    exCapFailed = { is_stopping := false, audio_thread := true
                    audio_buffer := List.replicate 1024 (0:ℚ)
                    whisper_buffer := [], resampler_state := some ⟨[], true⟩
                    sample_rate := 48000, channels := 1 } := by
  rw [exCapFailed, input_callback]
  simp only [exCapRunning, to_mono_one, drain_resampler_procFail]
  rfl

/-- A resample of the empty buffer is the empty buffer. -/
theorem resample_nil (create : Bool) (p q : List ℚ → Option (List ℚ))
    (from_rate to_rate : Nat) : resample create p q [] from_rate to_rate = [] := by
  rw [resample.eq_def, if_pos (Or.inr rfl)]

/-- The linear resampler of the empty buffer is empty. -/
theorem resample_linear_nil (from_rate to_rate : Nat) :
    resample_linear [] from_rate to_rate = [] := by
  rw [resample_linear]
  simp

/-- Every element of `List.replicate n 0` read through `getD` is `0`. -/
theorem getD_replicate_zero (n i : Nat) :
    (List.replicate n (0:ℚ)).getD i 0 = 0 := by
  rw [List.getD_eq_getElem?_getD, List.getElem?_replicate]
  split <;> rfl

/-- Folding the linear-interpolation step over indices of an all-zero sample
buffer only ever accumulates zeros. -/
theorem resample_linear_step_zero (samples : List ℚ) (ratio : ℚ)
    (hsamp : ∀ i, samples.getD i 0 = 0) (L : List Nat) :
    ∀ (acc : List ℚ), (∀ x ∈ acc, x = 0) →
      ∀ x ∈ L.foldl (fun (resampled : List ℚ) (i : Nat) =>
        let src_pos : ℚ := (i : ℚ) * ratio
        let src_idx : Nat := (⌊src_pos⌋).toNat
        let frac : ℚ := src_pos - (src_idx : ℚ)
        if src_idx + 1 < samples.length then
          resampled ++
            [samples.getD src_idx 0 * (1 - frac) + samples.getD (src_idx + 1) 0 * frac]
        else if src_idx < samples.length then
          resampled ++ [samples.getD src_idx 0]
        else resampled) acc, x = 0 := by
  induction L with
  | nil =>
      intro acc hacc x hx
      exact hacc x hx
  | cons i L ih =>
      intro acc hacc x hx
      rw [List.foldl_cons] at hx
      refine ih _ ?_ x hx
      intro y hy
      dsimp only at hy
      split_ifs at hy with h1 h2
      · rcases List.mem_append.mp hy with h | h
        · exact hacc y h
        · simp only [List.mem_singleton] at h
          rw [h, hsamp, hsamp]
          ring
      · rcases List.mem_append.mp hy with h | h
        · exact hacc y h
        · simp only [List.mem_singleton] at h
          rw [h, hsamp]
      · exact hacc y hy

/-- The linear resampler of an all-zero buffer yields only zeros. -/
theorem resample_linear_replicate_zero (n from_rate to_rate : Nat) (x : ℚ)
    (hx : x ∈ resample_linear (List.replicate n (0:ℚ)) from_rate to_rate) :
    x = 0 := by
  rw [resample_linear] at hx
  exact resample_linear_step_zero (List.replicate n (0:ℚ)) _
    (getD_replicate_zero n) _ [] (by simp) x hx

/-- The chunk loop of the post-stop rubato pass on the example session: one
full chunk processed, output `[7]`. -/
theorem resample_chunks_exAudio :
    resample_chunks procConst7 (List.replicate 1024 (0:ℚ)) 0 [] =
      some ([7], 1024) := by
  have hc1 : 0 + chunkSize ≤ (List.replicate 1024 (0:ℚ)).length := by
    simp only [List.length_replicate, chunkSize]
    omega
  have hc2 : ¬ (0 + chunkSize + chunkSize ≤ (List.replicate 1024 (0:ℚ)).length) := by
    simp only [List.length_replicate, chunkSize]
    omega
  rw [resample_chunks, if_pos hc1]
  simp only [procConst7]
  rw [resample_chunks, if_neg hc2]
  norm_num [chunkSize]

/-- The example session's fallback output is the rubato oracle's block. -/
theorem prepare_exAudio_eval :
    prepare_for_whisper true procConst7 procConst9 exAudioNoPre = [7] := by
  have h0 : exAudioNoPre.whisper_samples = none := rfl
  have hrep_ne : List.replicate 1024 (0:ℚ) ≠ [] := by
    intro h
    have := congrArg List.length h
    simp only [List.length_replicate, List.length_nil] at this
    omega
  rw [prepare_for_whisper]
  simp only [h0]
  rw [prepare_fallback]
  have hs : exAudioNoPre.samples = List.replicate 1024 (0:ℚ) := rfl
  have hsr : exAudioNoPre.sample_rate = 48000 := rfl
  have hch : exAudioNoPre.channels = 1 := rfl
  rw [hs, hsr, hch, if_neg hrep_ne, if_neg (show ¬ ((1:Nat) > 1) by omega),
    if_pos (show (48000:Nat) ≠ 16000 by omega)]
  rw [resample.eq_def,
    if_neg (show ¬ ((48000:Nat) = 16000 ∨ List.replicate 1024 (0:ℚ) = []) by
      rintro (h | h)
      · omega
      · exact hrep_ne h)]
  rw [if_neg (show ¬ ¬ (true = true) from not_not_intro rfl),
    resample_chunks_exAudio]
  norm_num [List.length_replicate]

/-- C5 counterexample: a 48kHz mono session whose real-time resampler fails on
its only callback.  The failure is recorded, `stop_capture` returns no
pre-processed samples — but the post-stop fallback, with the block resampler
succeeding, produces output different from the linear-interpolation resampler
applied to the complete raw buffer: the caller does not degrade to the linear
resampler. -/
theorem realtime_failure_fallback_is_not_linear :
    exCapFailed.resampler_state = some ⟨[], true⟩ ∧
    (stop_capture flushEmpty exCapFailed).toOption.map (fun r => r.1) =
      some exAudioNoPre ∧
    prepare_for_whisper true procConst7 procConst9 exAudioNoPre ≠
      resample_linear exAudioNoPre.samples exAudioNoPre.sample_rate 16000 := by
  refine ⟨by rw [exCapFailed_eval], ?_, ?_⟩
  · rw [exCapFailed_eval, stop_capture]
    rw [if_neg (by simp)]
    rfl
  · rw [prepare_exAudio_eval]
    intro h
    have h7 : (7:ℚ) ∈ resample_linear exAudioNoPre.samples
        exAudioNoPre.sample_rate 16000 := by
      rw [← h]
      simp
    have := resample_linear_replicate_zero 1024 48000 16000 7 h7
    norm_num at this

/-- C5 (amended): once the real-time resampler has failed, every further
callback only appends to the raw buffer (the normalized buffer and the
resampler state are untouched), `stop_capture` returns no pre-processed
normalized samples, and `prepare_for_whisper` degrades to one post-stop pass
over the complete raw buffer: mono downmix followed by `resample`, which
retries the block resampler and falls back to the linear-interpolation
resampler when the block resampler fails again — so a prepared sample buffer
is always produced and transcription proceeds. -/
theorem resampler_failure_sticky_and_fallback
    (proc flush pproc ppart : List ℚ → Option (List ℚ)) (s : CaptureState)
    (rs : RState) (data : List ℚ) (audio : AudioData) :
    (s.resampler_state = some rs → rs.failed = true →
      input_callback proc s data =
        { s with audio_buffer := s.audio_buffer ++ data }) ∧
    (s.resampler_state = some rs → rs.failed = true → s.audio_thread = true →
      (stop_capture flush s).toOption.map (fun r => r.1.whisper_samples) =
        some none) ∧
    (audio.whisper_samples = none → audio.sample_rate ≠ 16000 →
      prepare_for_whisper true pproc ppart audio =
        resample true pproc ppart (to_mono audio.samples audio.channels)
          audio.sample_rate 16000) ∧
    (audio.whisper_samples = none → audio.sample_rate ≠ 16000 →
      prepare_for_whisper false pproc ppart audio =
        resample_linear (to_mono audio.samples audio.channels)
          audio.sample_rate 16000) := by
  have hmono_eq : (if audio.channels > 1 then
      (chunksOf audio.channels audio.samples).map
        (fun chunk => chunk.sum / (chunk.length : ℚ))
      else audio.samples) = to_mono audio.samples audio.channels := by
    rw [to_mono]
    by_cases h : audio.channels ≤ 1
    · rw [if_neg (by omega), if_pos h]
    · rw [if_pos (by omega), if_neg h]
  have hfallback : ∀ create : Bool, audio.whisper_samples = none →
      audio.sample_rate ≠ 16000 →
      prepare_for_whisper create pproc ppart audio =
        if audio.samples = [] then []
        else resample create pproc ppart (to_mono audio.samples audio.channels)
          audio.sample_rate 16000 := by
    intro create h1 h2
    rw [prepare_for_whisper]
    simp only [h1]
    rw [prepare_fallback]
    by_cases hnil : audio.samples = []
    · rw [if_pos hnil, if_pos hnil]
    · rw [if_neg hnil, if_neg hnil, hmono_eq, if_pos h2]
  refine ⟨?_, ?_, ?_, ?_⟩
  · intro h1 h2
    rw [input_callback]
    simp only [h1, h2]
    rfl
  · intro h1 h2 h3
    rw [stop_capture, if_neg (by rw [h3]; simp)]
    simp only [h1, h2]
    rfl
  · intro h1 h2
    rw [hfallback true h1 h2]
    by_cases hnil : audio.samples = []
    · rw [if_pos hnil, hnil, to_mono_nil, resample_nil]
    · rw [if_neg hnil]
  · intro h1 h2
    rw [hfallback false h1 h2]
    by_cases hnil : audio.samples = []
    · rw [if_pos hnil, hnil, to_mono_nil, resample_linear_nil]
    · rw [if_neg hnil, resample.eq_def]
      by_cases hmn : to_mono audio.samples audio.channels = []
      · rw [if_pos (Or.inr hmn), hmn, resample_linear_nil]
      · rw [if_neg (show ¬ (audio.sample_rate = 16000 ∨
              to_mono audio.samples audio.channels = []) by
            rintro (h | h)
            · exact h2 h
            · exact hmn h),
          if_pos (show ¬ (false = true) by simp)]

end Mentascribe
